import Mathlib

/-!
Verification of the conversation-state and backend-bridging engine of the
lichess-bot fork (files `lib/ai_chat.py`, `lib/conversation.py`).

The Python code is shallowly embedded: the stored chat history becomes a
`List Msg`, the normalization / rollback routines of `AIChatHandler` become
pure Lean functions over it, the HTTP layer is parametrized by explicit
outcome values, and Python strings subject to character-level processing
become `List Char`.  Python `int` values (status codes, configured limits)
become `Int`.
-/

namespace LichessBot

/-- Conversational role of a stored history message.  `AIChatHandler.history`
only ever stores `"user"` and `"assistant"` roles (`lib/ai_chat.py`, line 52);
system messages are synthesized per request and never stored. -/
inductive Role
  | user
  | assistant
deriving DecidableEq, Repr

/-- One stored history entry: `{"role": ..., "content": ...}`. -/
structure Msg where
  role : Role
  content : String
deriving DecidableEq, Repr

/-- The opposite conversational role (the `expected` toggle in
`_normalize_history`, lines 189-191). -/
def Role.other : Role → Role
  | .user => .assistant
  | .assistant => .user

/-- Step 1 / step 4 of `_normalize_history` (lines 181-182 and 207-208):
`while self.history and self.history[0].get("role") != "user":
self.history.pop(0)`. -/
def dropLeadingNonUser : List Msg → List Msg
  | [] => []
  | m :: t => if m.role = Role.user then m :: t else dropLeadingNonUser t

/-- Step 2 of `_normalize_history` (lines 184-195): walk the history keeping
a message only when its role equals the expected role, toggling the expected
role after each kept message.  The caller starts with expected `user`. -/
def enforceAlternation (expected : Role) : List Msg → List Msg
  | [] => []
  | m :: t =>
    if m.role = expected then m :: enforceAlternation expected.other t
    else enforceAlternation expected t

/-- `_normalize_history` (`lib/ai_chat.py`, lines 173-212): drop leading
non-user messages, enforce strict alternation starting from `user`, clear
everything when the configured maximum is non-positive, otherwise keep the
last `n` messages (`self.history[-n:]`), and drop leading non-user messages
again. -/
def normalize_history (n : Int) (h : List Msg) : List Msg :=
  let h1 := dropLeadingNonUser h
  let h2 := enforceAlternation Role.user h1
  if n ≤ 0 then []
  else
    let h3 := if (h2.length : Int) > n then h2.drop (h2.length - n.toNat) else h2
    dropLeadingNonUser h3

/-- `_rollback_last_user_if_unanswered` (lines 168-171): pop the trailing
message when it is a user message. -/
def rollback_last_user_if_unanswered (h : List Msg) : List Msg :=
  match h.getLast? with
  | some m => if m.role = Role.user then h.dropLast else h
  | none => h

/-- The three History Manager mutations, as `_generate` performs them
(append then normalize, lines 144-146 and 157-158; rollback, line 153/165). -/
inductive HistOp
  | appendUser (text : String)
  | appendAssistant (text : String)
  | rollbackUnanswered

/-- Apply one History Manager operation to a stored transcript under the
configured `max_history_messages` value `n`. -/
def applyHistOp (n : Int) (h : List Msg) : HistOp → List Msg
  | .appendUser t => normalize_history n (h ++ [⟨Role.user, t⟩])
  | .appendAssistant t => normalize_history n (h ++ [⟨Role.assistant, t⟩])
  | .rollbackUnanswered => rollback_last_user_if_unanswered h

/-- Run a sequence of History Manager operations starting from the empty
transcript (a fresh `AIChatHandler`). -/
def runHistOps (n : Int) (ops : List HistOp) : List Msg :=
  ops.foldl (applyHistOp n) []

/-- `alternatesFrom r h` holds when the roles of `h` are exactly
`r, r.other, r, ...`.  `alternatesFrom .user h` is the spec's alternation
invariant: strict alternation starting with `user` when non-empty. -/
def alternatesFrom (r : Role) : List Msg → Bool
  | [] => true
  | m :: t => m.role = r && alternatesFrom r.other t

/-- Expected role after consuming a transcript that starts at expected role
`r` and alternates: used to reason about appends at the end of history. -/
def nextExpected (r : Role) : List Msg → Role
  | [] => r
  | _ :: t => nextExpected r.other t

/-! ### Reply Sanitizer (`lib/conversation.py`, lines 21-45)

Python strings under character-level processing are embedded as `List Char`. -/

/-- ASCII approximation of Python `str.split()` / `str.strip()` whitespace
(space, tab, newline, carriage return, vertical tab, form feed). -/
def pyIsSpace (c : Char) : Bool :=
  c = ' ' || c = '\t' || c = '\n' || c = '\r' ||
    c = Char.ofNat 11 || c = Char.ofNat 12

/-- Worker for `pySplit`: accumulates the current word (reversed) while
scanning. -/
def splitAux : List Char → List Char → List (List Char)
  | [], acc => if acc.isEmpty then [] else [acc.reverse]
  | c :: cs, acc =>
    if pyIsSpace c then
      if acc.isEmpty then splitAux cs [] else acc.reverse :: splitAux cs []
    else splitAux cs (c :: acc)

/-- Python `text.split()` with no separator: maximal runs of non-whitespace
characters, with all whitespace discarded. -/
def pySplit (l : List Char) : List (List Char) := splitAux l []

/-- Python `" ".join(words)`. -/
def joinSpace : List (List Char) → List Char
  | [] => []
  | [w] => w
  | w :: ws => w ++ ' ' :: joinSpace ws

/-- `" ".join(str(text).split())` — collapse every whitespace run to a single
space (line 32 of `conversation.py`). -/
def pyClean (text : List Char) : List Char := joinSpace (pySplit text)

/-- Python `s.rstrip()`: drop trailing whitespace. -/
def pyRstrip (l : List Char) : List Char :=
  (l.reverse.dropWhile pyIsSpace).reverse

/-- Python `s.lstrip()`: drop leading whitespace. -/
def pyLstrip (l : List Char) : List Char := l.dropWhile pyIsSpace

/-- Python `s.strip()`: drop leading and trailing whitespace. -/
def pyStrip (l : List Char) : List Char := pyRstrip (pyLstrip l)

/-- Python `s.rfind(c)` for a single character: highest index of `c`, or
`-1` when absent. -/
def rfindChar (l : List Char) (c : Char) : Int :=
  match l with
  | [] => -1
  | x :: xs =>
    let r := rfindChar xs c
    if 0 ≤ r then r + 1 else if x = c then 0 else -1

/-- `MAX_LICHESS_CHAT_CHARS` (`conversation.py`, line 18). -/
def MAX_LICHESS_CHAT_CHARS : Int := 140

/-- `_lichess_safe_message(text, limit)` (`conversation.py`, lines 21-45):
empty input passes through, whitespace is collapsed, and text longer than
`limit` is truncated to `limit - 1` characters, cut back to the last space
when that space sits at index ≥ 30, right-stripped, and suffixed with a
single ellipsis character. -/
def lichess_safe_message (text : List Char) (limit : Int) : List Char :=
  if text = [] then []
  else
    let clean := pyClean text
    if (clean.length : Int) ≤ limit then clean
    else
      let hard := max 0 (limit - 1)
      let cut := clean.take hard.toNat
      let lastSpace := rfindChar cut ' '
      let cut2 := if 30 ≤ lastSpace then cut.take lastSpace.toNat else cut
      pyRstrip cut2 ++ ['…']

/-- `send_reply` (`conversation.py`, lines 136-146): the sanitized reply is
handed to the transport (`li.chat`) only when it is non-empty; the value
carried by `some` is exactly the text passed to the transport. -/
def send_reply_sent (reply : List Char) : Option (List Char) :=
  let r := lichess_safe_message reply MAX_LICHESS_CHAT_CHARS
  if r = [] then none else some r

/-- Relation forbidding two adjacent spaces, used with `List.Chain'` to
state that whitespace runs have been collapsed. -/
def noDouble (a b : Char) : Prop := ¬(a = ' ' ∧ b = ' ')

/-! ### Completion Client (`_call_llamacpp_chat`, `lib/ai_chat.py` 214-264)

The HTTP transport is external; it is parametrized by an explicit outcome
value.  The response body is abstracted to the shapes the parsing code
distinguishes. -/

/-- Parsed shape of the completion response body, as distinguished by lines
248-264 of `ai_chat.py`. -/
inductive ChatBody
  /-- `r.json()` raises (non-JSON body, line 250). -/
  | notJson
  /-- JSON whose traversal raises inside the `try` of lines 255-261
  (e.g. `data` is not an object, or `choices[0]` has no `.get`). -/
  | badShape
  /-- JSON object with an absent, null, or empty `choices` entry
  (line 257). -/
  | choicesMissing
  /-- Non-empty `choices` whose first element carries `content`
  (`none` models an absent or null `content`, line 260). -/
  | choicesFirst (content : Option (List Char))

/-- Outcome of the `POST /v1/chat/completions` transport call:
a `requests.RequestException` (including timeout) or a response with a
status code and body. -/
inductive HttpOutcome
  | transportError
  | response (status : Int) (body : ChatBody)

/-- `_call_llamacpp_chat` (`ai_chat.py`, lines 214-264), returning the reply
text (empty on failure) paired with the updated `_connected` flag.
A transport error sets `_connected = False` (line 238); a non-200 status
returns the empty string and sets `_connected = False` exactly for
502/503/504 (lines 241-246); parse failures return the empty string leaving
`_connected` untouched; on success the content is stripped (line 260). -/
def call_llamacpp_chat (o : HttpOutcome) (connected : Bool) :
    List Char × Bool :=
  match o with
  | .transportError => ([], false)
  | .response st body =>
    if st ≠ 200 then
      ([], if st = 502 ∨ st = 503 ∨ st = 504 then false else connected)
    else
      match body with
      | .notJson => ([], connected)
      | .badShape => ([], connected)
      | .choicesMissing => ([], connected)
      | .choicesFirst c => (pyStrip (c.getD []), connected)

/-! ### Backend Probe (`_probe_server`, `lib/ai_chat.py` 103-126) -/

/-- First element of the `data` list in the `/v1/models` payload. -/
inductive ModelsEntry
  /-- An element without `.get` — `models[0].get("id")` raises, sending
  control to the fallback block. -/
  | nonDict
  /-- A JSON object; `id?` is its `"id"` entry when present. -/
  | dict (id? : Option String)

/-- Shape of the `/v1/models` response payload as distinguished by lines
112-117 of `ai_chat.py`. -/
inductive ModelsPayload
  /-- `r.json()` raises. -/
  | notJson
  /-- `data.get("data")` is absent or falsy (including the empty list). -/
  | dataMissing
  /-- `data.get("data")` is truthy but not a list. -/
  | dataNonList
  /-- `data.get("data")` is a non-empty list with first element `first`. -/
  | dataList (first : ModelsEntry)

/-- Outcome of the `GET /v1/models` transport call. -/
inductive ModelsOutcome
  | transportError
  | response (status : Int) (payload : ModelsPayload)

/-- Outcome of the fallback `GET` against the endpoint root. -/
inductive RootOutcome
  | transportError
  | response (status : Int)

/-- The fallback block of `_probe_server` (lines 121-126): reachable exactly
when the root responds with status 200, 301 or 302; any exception yields
`False`. -/
def probe_fallback : RootOutcome → Bool
  | .transportError => false
  | .response st => decide (st = 200 ∨ st = 301 ∨ st = 302)

/-- `_probe_server` (lines 103-126), returning the reachability flag paired
with the recorded `_server_model_id`.  A 200 from `/v1/models` with a
traversable payload returns `True`, recording the first listed id when the
payload holds a non-empty list; every other path (transport error, non-200
status, JSON failure, raising first element) falls through to the root
fallback with no model id recorded. -/
def probe_server (m : ModelsOutcome) (root : RootOutcome) :
    Bool × Option String :=
  match m with
  | .transportError => (probe_fallback root, none)
  | .response st payload =>
    if st = 200 then
      match payload with
      | .notJson => (probe_fallback root, none)
      | .dataMissing => (true, none)
      | .dataNonList => (true, none)
      | .dataList .nonDict => (probe_fallback root, none)
      | .dataList (.dict id?) => (true, id?)
    else (probe_fallback root, none)

/-! ### Chat Session entry (`get_ai_response`, `lib/ai_chat.py` 86-99) -/

/-- The fixed disconnected apology (line 95). -/
def brainDisconnectedMsg : String :=
  "My brain is currently disconnected (AI server offline)."

/-- `get_ai_response` (lines 86-99), up to the hand-off to the `_generate`
worker: when the feature is disabled it returns with no callback and no
history change; when disconnected it invokes the callback with the fixed
apology, again without touching history; otherwise the `generate` worker
runs.  The first component is the text passed to the callback (if any), the
second the resulting history. -/
def get_ai_response (enabled connected : Bool) (h : List Msg)
    (generate : List Msg → Option String × List Msg) :
    Option String × List Msg :=
  if !enabled then (none, h)
  else if !connected then (some brainDisconnectedMsg, h)
  else generate h

/-! ### Command Router (`Conversation.react` / `Conversation.command`,
`lib/conversation.py` 86-134) -/

/-- An incoming chat line event. -/
structure ChatLine where
  room : String
  username : String
  text : String
deriving DecidableEq, Repr

/-- Collaborator context consumed by the command dispatcher. -/
structure ChatEnv where
  /-- `game.username`: the bot's own identity. -/
  botName : String
  /-- `engine.get_stats(for_chat=True)`. -/
  stats : List String
  /-- `game.is_abortable()`. -/
  isAbortable : Bool
  /-- `game.me.name`. -/
  accountName : String
  /-- `engine.name()`. -/
  engineName : String
  /-- The lichess-bot version string. -/
  version : String
  /-- Challenger names of the queued challenges, in queue order. -/
  queueNames : List String
deriving Repr

/-- Python `s.lower()` restricted to ASCII case mapping. -/
def lowerStr (s : String) : String := ⟨s.data.map Char.toLower⟩

/-- Python `s[n:]`. -/
def dropStr (n : Nat) (s : String) : String := ⟨s.data.drop n⟩

/-- Python `s.startswith(pre)`. -/
def startsWithStr (s pre : String) : Bool := pre.data.isPrefixOf s.data

/-- The `!commands` / `!help` reply text (lines 115-117). -/
def commandsReply : String :=
  "Supported commands: !wait (wait a minute for my first move), !name, !eval (or any text starting with !eval), !queue"

/-- The eval refusal sent to opponents (line 128). -/
def dontTellReply : String :=
  "I don" ++ Char.toString '\'' ++ "t tell that to my opponent, sorry."

/-- `Conversation.command` (lines 105-134): dispatch one stripped,
lower-cased command string; `none` when no branch matches (unrecognized
commands draw no reply). -/
def command (env : ChatEnv) (line : ChatLine) (cmd : String) :
    Option String :=
  let fromSelf := line.username = env.botName
  let isEval := startsWithStr cmd "eval"
  if cmd = "commands" ∨ cmd = "help" then some commandsReply
  else if cmd = "wait" ∧ env.isAbortable then some "Waiting 60 seconds..."
  else if cmd = "name" then
    some (env.accountName ++ " running " ++ env.engineName ++
      " (lichess-bot v" ++ env.version ++ ")")
  else if isEval ∧ (fromSelf ∨ line.room = "spectator") then
    some (String.intercalate ", " env.stats)
  else if isEval then some dontTellReply
  else if cmd = "queue" then
    if env.queueNames ≠ [] then
      some ("Challenge queue: " ++
        String.intercalate ", " (env.queueNames.reverse.map (fun n => "@" ++ n)))
    else some "No challenges queued."
  else none

/-- Routing outcome of `Conversation.react`. -/
inductive ReactOutcome
  /-- The early return for the bot's own messages (lines 96-97). -/
  | selfSuppressed
  /-- Dispatch via `command` with the given reply. -/
  | commandDispatched (reply : Option String)
  /-- Free text forwarded to `ai_chat.get_ai_response`. -/
  | aiForwarded (text : String)
  /-- Empty text: nothing happens. -/
  | ignored
deriving DecidableEq, Repr

/-- `Conversation.react` (lines 86-103): suppress the bot's own messages
before any dispatch; command-prefixed text goes to `command` with the prefix
stripped and lower-cased; other non-empty text is forwarded to the AI
handler. -/
def react (env : ChatEnv) (line : ChatLine) : ReactOutcome :=
  if line.username = env.botName then .selfSuppressed
  else if line.text ≠ "" ∧ startsWithStr line.text "!" then
    .commandDispatched (command env line (lowerStr (dropStr 1 line.text)))
  else if line.text ≠ "" then .aiForwarded line.text
  else .ignored

/-! ### Stats access in `_generate` (`lib/ai_chat.py`, lines 130-131) -/

/-- `score = stats[1] if stats else "unknown"`: `none` models the
`IndexError` raised by `stats[1]`, which sends `_generate` into its
exception handler. -/
def score_of_stats (stats : List String) : Option String :=
  if stats = [] then some "unknown" else stats[1]?

/-! ### Lemmas about normalization and rollback -/

theorem alternatesFrom_enforceAlternation (r : Role) (h : List Msg) :
    alternatesFrom r (enforceAlternation r h) = true := by
  induction h generalizing r with
  | nil => rfl
  | cons m t ih =>
    by_cases hm : m.role = r
    · simp [enforceAlternation, hm, alternatesFrom, ih]
    · simp [enforceAlternation, hm, ih]

theorem alternatesFrom_dropLeadingNonUser (r : Role) (h : List Msg)
    (hh : alternatesFrom r h = true) :
    alternatesFrom Role.user (dropLeadingNonUser h) = true := by
  induction h generalizing r with
  | nil => rfl
  | cons m t ih =>
    simp only [alternatesFrom, Bool.and_eq_true, decide_eq_true_eq] at hh
    by_cases hm : m.role = Role.user
    · have hr : r = Role.user := by rw [← hh.1, hm]
      subst hr
      simp only [dropLeadingNonUser, hm, if_pos]
      simp only [alternatesFrom, Bool.and_eq_true, decide_eq_true_eq]
      exact ⟨hm, hh.2⟩
    · simp only [dropLeadingNonUser, hm, if_neg]
      exact ih r.other hh.2

theorem alternatesFrom_drop (k : Nat) (r : Role) (h : List Msg)
    (hh : alternatesFrom r h = true) :
    ∃ r', alternatesFrom r' (h.drop k) = true := by
  induction k generalizing r h with
  | zero => exact ⟨r, hh⟩
  | succ k ih =>
    cases h with
    | nil => exact ⟨r, rfl⟩
    | cons m t =>
      simp only [alternatesFrom, Bool.and_eq_true] at hh
      exact ih r.other t hh.2

theorem length_dropLeadingNonUser (h : List Msg) :
    (dropLeadingNonUser h).length ≤ h.length := by
  induction h with
  | nil => simp [dropLeadingNonUser]
  | cons m t ih =>
    by_cases hm : m.role = Role.user
    · simp [dropLeadingNonUser, hm]
    · simp only [dropLeadingNonUser, hm, if_neg]
      exact Nat.le_succ_of_le ih

theorem alternatesFrom_normalize (n : Int) (h : List Msg) :
    alternatesFrom Role.user (normalize_history n h) = true := by
  unfold normalize_history
  by_cases hn : n ≤ 0
  · simp [hn, alternatesFrom]
  · simp only [hn, if_neg, not_false_iff]
    set h2 := enforceAlternation Role.user (dropLeadingNonUser h) with hh2
    have halt : alternatesFrom Role.user h2 = true :=
      alternatesFrom_enforceAlternation Role.user (dropLeadingNonUser h)
    by_cases hlen : (h2.length : Int) > n
    · simp only [hlen, if_pos]
      obtain ⟨r', hr'⟩ :=
        alternatesFrom_drop (h2.length - n.toNat) Role.user h2 halt
      exact alternatesFrom_dropLeadingNonUser r' _ hr'
    · simp only [hlen, if_neg, not_false_iff]
      exact alternatesFrom_dropLeadingNonUser Role.user h2 halt

theorem length_normalize (n : Int) (h : List Msg) (hn : 0 ≤ n) :
    ((normalize_history n h).length : Int) ≤ n := by
  unfold normalize_history
  by_cases hz : n ≤ 0
  · simp [hz]; omega
  · simp only [hz, if_neg, not_false_iff]
    set h2 := enforceAlternation Role.user (dropLeadingNonUser h) with hh2
    by_cases hlen : (h2.length : Int) > n
    · simp only [hlen, if_pos]
      have h1 : (dropLeadingNonUser (h2.drop (h2.length - n.toNat))).length
          ≤ (h2.drop (h2.length - n.toNat)).length :=
        length_dropLeadingNonUser _
      have h2' : (h2.drop (h2.length - n.toNat)).length = n.toNat := by
        rw [List.length_drop]
        omega
      rw [h2'] at h1
      omega
    · simp only [hlen, if_neg, not_false_iff]
      have h1 : (dropLeadingNonUser h2).length ≤ h2.length :=
        length_dropLeadingNonUser h2
      omega

theorem alternatesFrom_dropLast (r : Role) (h : List Msg)
    (hh : alternatesFrom r h = true) :
    alternatesFrom r h.dropLast = true := by
  induction h generalizing r with
  | nil => rfl
  | cons m t ih =>
    cases t with
    | nil => rfl
    | cons b t' =>
      simp only [alternatesFrom, Bool.and_eq_true] at hh
      simp only [List.dropLast_cons₂, alternatesFrom, Bool.and_eq_true]
      refine ⟨hh.1, ih r.other ?_⟩
      simp only [alternatesFrom, Bool.and_eq_true]
      exact hh.2

theorem alternatesFrom_rollback (r : Role) (h : List Msg)
    (hh : alternatesFrom r h = true) :
    alternatesFrom r (rollback_last_user_if_unanswered h) = true := by
  unfold rollback_last_user_if_unanswered
  cases hl : h.getLast? with
  | none => exact hh
  | some m =>
    by_cases hm : m.role = Role.user
    · simp only [hm, if_pos]
      exact alternatesFrom_dropLast r h hh
    · simp only [hm, if_neg, not_false_iff]
      exact hh

theorem length_rollback (h : List Msg) :
    (rollback_last_user_if_unanswered h).length ≤ h.length := by
  unfold rollback_last_user_if_unanswered
  cases hl : h.getLast? with
  | none => exact le_refl _
  | some m =>
    by_cases hm : m.role = Role.user
    · simp only [hm, if_pos]
      exact (List.length_dropLast h) ▸ Nat.sub_le _ _
    · simp only [hm, if_neg, not_false_iff]
      exact le_refl _

/-! ### Claim theorems: History Manager invariants -/

/-- C1: for every interleaving of `append_user` / `append_assistant` (each an
append followed by `_normalize_history`) and `_rollback_last_user_if_unanswered`,
and every configured `max_history_messages`, the stored transcript strictly
alternates roles starting with `user` when non-empty, and (for a non-negative
configured maximum) its length is at most `max_history_messages`. -/
theorem history_ops_preserve_invariants (ops : List HistOp) (n : Int) :
    alternatesFrom Role.user (runHistOps n ops) = true ∧
    (0 ≤ n → ((runHistOps n ops).length : Int) ≤ n) := by
  suffices H : ∀ (h : List Msg),
      alternatesFrom Role.user h = true →
      (0 ≤ n → ((h.length : Int) ≤ n)) →
      alternatesFrom Role.user (ops.foldl (applyHistOp n) h) = true ∧
      (0 ≤ n → ((ops.foldl (applyHistOp n) h).length : Int) ≤ n) by
    exact H [] rfl (by intro hn; simpa using hn)
  induction ops with
  | nil => intro h h1 h2; exact ⟨h1, h2⟩
  | cons op rest ih =>
    intro h h1 h2
    simp only [List.foldl_cons]
    apply ih
    · cases op with
      | appendUser t => exact alternatesFrom_normalize n _
      | appendAssistant t => exact alternatesFrom_normalize n _
      | rollbackUnanswered => exact alternatesFrom_rollback Role.user h h1
    · intro hn
      cases op with
      | appendUser t => exact length_normalize n _ hn
      | appendAssistant t => exact length_normalize n _ hn
      | rollbackUnanswered =>
        have := length_rollback h
        have := h2 hn
        simp only [applyHistOp]
        omega

/-- Witness for C1: a concrete interleaving with `max_history_messages = 2`. -/
theorem history_ops_preserve_invariants_witness :
    alternatesFrom Role.user
      (runHistOps 2 [.appendUser "hi", .appendAssistant "yo",
        .appendUser "more", .rollbackUnanswered]) = true ∧
    (0 ≤ (2 : Int) →
      ((runHistOps 2 [.appendUser "hi", .appendAssistant "yo",
        .appendUser "more", .rollbackUnanswered]).length : Int) ≤ 2) :=
  history_ops_preserve_invariants
    [.appendUser "hi", .appendAssistant "yo", .appendUser "more",
      .rollbackUnanswered] 2

theorem enforceAlternation_of_alternates (r : Role) (h : List Msg)
    (hh : alternatesFrom r h = true) : enforceAlternation r h = h := by
  induction h generalizing r with
  | nil => rfl
  | cons m t ih =>
    simp only [alternatesFrom, Bool.and_eq_true, decide_eq_true_eq] at hh
    simp only [enforceAlternation, hh.1, if_pos]
    rw [ih r.other hh.2]

theorem dropLeadingNonUser_of_alternates (h : List Msg)
    (hh : alternatesFrom Role.user h = true) : dropLeadingNonUser h = h := by
  cases h with
  | nil => rfl
  | cons m t =>
    simp only [alternatesFrom, Bool.and_eq_true, decide_eq_true_eq] at hh
    simp [dropLeadingNonUser, hh.1]

theorem alternatesFrom_append_nextExpected (r : Role) (h : List Msg)
    (t : String) (hh : alternatesFrom r h = true) :
    alternatesFrom r (h ++ [⟨nextExpected r h, t⟩]) = true := by
  induction h generalizing r with
  | nil => simp [nextExpected, alternatesFrom]
  | cons m tl ih =>
    simp only [alternatesFrom, Bool.and_eq_true, decide_eq_true_eq] at hh
    simp only [List.cons_append, alternatesFrom, nextExpected,
      Bool.and_eq_true, decide_eq_true_eq]
    exact ⟨hh.1, ih r.other hh.2⟩

theorem nextExpected_of_getLast (r : Role) (h : List Msg)
    (hh : alternatesFrom r h = true) :
    (h.getLast? = none → nextExpected r h = r) ∧
    (∀ m, h.getLast? = some m → nextExpected r h = m.role.other) := by
  induction h generalizing r with
  | nil => exact ⟨fun _ => rfl, fun m hm => by simp at hm⟩
  | cons a t ih =>
    simp only [alternatesFrom, Bool.and_eq_true, decide_eq_true_eq] at hh
    constructor
    · intro hnone
      rw [List.getLast?_eq_none_iff] at hnone
      exact absurd hnone (by simp)
    · intro m hm
      cases t with
      | nil =>
        simp only [List.getLast?_singleton, Option.some.injEq] at hm
        subst hm
        simp [nextExpected, hh.1]
      | cons b t' =>
        rw [List.getLast?_cons_cons] at hm
        simpa [nextExpected] using (ih r.other hh.2).2 m hm

theorem rollback_cons (a : Msg) (t : List Msg) (ht : t ≠ []) :
    rollback_last_user_if_unanswered (a :: t) =
      a :: rollback_last_user_if_unanswered t := by
  cases t with
  | nil => exact absurd rfl ht
  | cons b t' =>
    unfold rollback_last_user_if_unanswered
    rw [List.getLast?_cons_cons]
    cases hl : (b :: t').getLast? with
    | none =>
      rw [List.getLast?_eq_none_iff] at hl
    | some m =>
      by_cases hm : m.role = Role.user
      · simp [hm, List.dropLast_cons₂]
      · simp [hm]

/-! ### Claim theorems: rollback behaviour -/

/-- C3 counterexample: `[{user, "hi"}]` is a valid transcript state (it
strictly alternates starting with `user`), yet `append_user "X"` (append then
normalize, with `max_history_messages = 10`) followed by
`rollback_unanswered` yields the empty transcript, not the pre-append state:
the appended user turn is discarded by alternation filtering, so rollback
removes the original turn instead. -/
theorem rollback_restore_counterexample :
    alternatesFrom Role.user [⟨Role.user, "hi"⟩] = true ∧
    rollback_last_user_if_unanswered
        (normalize_history 10 ([⟨Role.user, "hi"⟩] ++ [⟨Role.user, "X"⟩]))
      ≠ [⟨Role.user, "hi"⟩] := by
  constructor
  · rfl
  · intro hcontra
    have : rollback_last_user_if_unanswered
        (normalize_history 10 ([⟨Role.user, "hi"⟩] ++ [⟨Role.user, "X"⟩]))
        = [] := by rfl
    rw [hcontra] at this
    simp at this

/-- C3 (amended): `append_user` followed immediately by
`rollback_unanswered` restores the exact pre-append transcript provided the
prior transcript alternates starting with `user`, does not end with a user
turn, and has room under `max_history_messages`; `rollback_unanswered` is a
no-op when the trailing turn is an assistant turn or the transcript is
empty, and it is idempotent on alternating transcripts. -/
theorem rollback_correctness :
    (∀ (h : List Msg) (n : Int) (t : String),
      alternatesFrom Role.user h = true →
      (∀ m, h.getLast? = some m → m.role = Role.assistant) →
      (h.length : Int) < n →
      rollback_last_user_if_unanswered
        (normalize_history n (h ++ [⟨Role.user, t⟩])) = h) ∧
    (∀ h : List Msg,
      (∀ m, h.getLast? = some m → m.role = Role.assistant) →
      rollback_last_user_if_unanswered h = h) ∧
    (∀ h : List Msg, alternatesFrom Role.user h = true →
      rollback_last_user_if_unanswered (rollback_last_user_if_unanswered h) =
        rollback_last_user_if_unanswered h) := by
  refine ⟨?_, ?_, ?_⟩
  · intro h n t halt hend hlen
    have hne : nextExpected Role.user h = Role.user := by
      cases hl : h.getLast? with
      | none => exact (nextExpected_of_getLast Role.user h halt).1 hl
      | some m =>
        have := (nextExpected_of_getLast Role.user h halt).2 m hl
        rw [this, hend m hl]
        rfl
    have halt' : alternatesFrom Role.user (h ++ [⟨Role.user, t⟩]) = true := by
      have := alternatesFrom_append_nextExpected Role.user h t halt
      rwa [hne] at this
    have hnorm : normalize_history n (h ++ [⟨Role.user, t⟩]) =
        h ++ [⟨Role.user, t⟩] := by
      have hn0 : ¬ n ≤ 0 := by
        have : (0 : Int) ≤ h.length := Int.ofNat_nonneg _
        omega
      have hlen' : ¬ ((h ++ [(⟨Role.user, t⟩ : Msg)]).length : Int) > n := by
        simp only [List.length_append, List.length_singleton]
        push_cast
        omega
      simp only [normalize_history, hn0, if_neg, not_false_iff]
      rw [dropLeadingNonUser_of_alternates _ halt',
        enforceAlternation_of_alternates _ _ halt', if_neg hlen']
      exact dropLeadingNonUser_of_alternates _ halt'
    rw [hnorm]
    unfold rollback_last_user_if_unanswered
    rw [List.getLast?_concat]
    simp [List.dropLast_concat]
  · intro h hend
    unfold rollback_last_user_if_unanswered
    cases hl : h.getLast? with
    | none => rfl
    | some m =>
      show (if m.role = Role.user then h.dropLast else h) = h
      rw [hend m hl]
      simp
  · intro h halt
    suffices H : ∀ (r : Role) (h : List Msg), alternatesFrom r h = true →
        rollback_last_user_if_unanswered (rollback_last_user_if_unanswered h) =
          rollback_last_user_if_unanswered h from H Role.user h halt
    intro r h
    induction h generalizing r with
    | nil => intro _; rfl
    | cons a t ih =>
      intro hh
      simp only [alternatesFrom, Bool.and_eq_true, decide_eq_true_eq] at hh
      cases t with
      | nil =>
        by_cases ha : a.role = Role.user
        · simp [rollback_last_user_if_unanswered, ha]
        · simp [rollback_last_user_if_unanswered, ha]
      | cons b t' =>
        rw [rollback_cons a (b :: t') (by simp)]
        by_cases hrt : rollback_last_user_if_unanswered (b :: t') = []
        · -- only possible when t' = [] and b is a user turn
          cases t' with
          | nil =>
            have hb : b.role = Role.user := by
              by_contra hb
              simp [rollback_last_user_if_unanswered, hb] at hrt
            have hbr : b.role = r.other := by
              simp only [alternatesFrom, Bool.and_eq_true,
                decide_eq_true_eq] at hh
              exact hh.2.1
            have hane : a.role ≠ Role.user := by
              rw [hh.1]
              intro hr
              rw [hr] at hbr
              rw [hb] at hbr
              cases hbr
            rw [hrt]
            simp [rollback_last_user_if_unanswered, hane]
          | cons c t'' =>
            exfalso
            unfold rollback_last_user_if_unanswered at hrt
            cases hl : (b :: c :: t'').getLast? with
            | none =>
              rw [List.getLast?_eq_none_iff] at hl
              simp at hl
            | some m =>
              rw [hl] at hrt
              by_cases hm : m.role = Role.user
              · simp [hm, List.dropLast_cons₂] at hrt
              · simp [hm] at hrt
        · rw [rollback_cons a _ hrt, ih r.other hh.2]

/-- Witness for C3: a one-exchange transcript with room left under the
configured maximum is restored exactly. -/
theorem rollback_correctness_witness :
    rollback_last_user_if_unanswered
      (normalize_history 10
        ([⟨Role.user, "hi"⟩, ⟨Role.assistant, "yo"⟩] ++ [⟨Role.user, "X"⟩]))
      = [⟨Role.user, "hi"⟩, ⟨Role.assistant, "yo"⟩] :=
  rollback_correctness.1 [⟨Role.user, "hi"⟩, ⟨Role.assistant, "yo"⟩] 10 "X"
    (by decide) (by decide) (by decide)

/-- C4: with `max_history_messages = 2` and a stored transcript of one user
turn then one assistant turn, appending a user turn `"again"` and
normalizing keeps alternation, trims to the last two turns (exposing a
leading assistant turn), and the final drop-leading pass leaves exactly
`[{user, "again"}]`. -/
theorem scenario_c_trim (c1 c2 : String) :
    (enforceAlternation Role.user
        (dropLeadingNonUser
          ([⟨Role.user, c1⟩, ⟨Role.assistant, c2⟩] ++ [⟨Role.user, "again"⟩]))
      = [⟨Role.user, c1⟩, ⟨Role.assistant, c2⟩, ⟨Role.user, "again"⟩]) ∧
    ([⟨Role.user, c1⟩, ⟨Role.assistant, c2⟩,
        (⟨Role.user, "again"⟩ : Msg)].drop 1
      = [⟨Role.assistant, c2⟩, ⟨Role.user, "again"⟩]) ∧
    (dropLeadingNonUser [⟨Role.assistant, c2⟩, ⟨Role.user, "again"⟩]
      = [⟨Role.user, "again"⟩]) ∧
    (normalize_history 2
        ([⟨Role.user, c1⟩, ⟨Role.assistant, c2⟩] ++ [⟨Role.user, "again"⟩])
      = [⟨Role.user, "again"⟩]) :=
  ⟨rfl, rfl, rfl, rfl⟩

/-! ### Claim theorems: Completion Client -/

/-- C2 counterexample: a transport error (including a timeout) with the
backend previously connected yields the empty-string result but also flips
`_connected` to `False` — a state change the claim reserves for 502/503/504
statuses alone. -/
theorem completion_transport_state_counterexample :
    call_llamacpp_chat HttpOutcome.transportError true = ([], false) ∧
    (false : Bool) ≠ true := ⟨rfl, by decide⟩

/-- C2 (amended): the completion call is total and every transport error,
timeout, non-200 status, JSON parse failure, or missing/empty choices shape
yields the empty string; a transport error or timeout additionally marks the
backend disconnected, as do exactly the statuses 502, 503 and 504 among
non-200 responses; parse failures on a 200 response leave the connected flag
unchanged. -/
theorem completion_failure_contract (conn : Bool) :
    (call_llamacpp_chat .transportError conn = ([], false)) ∧
    (∀ (st : Int) (body : ChatBody), st ≠ 200 →
      (call_llamacpp_chat (.response st body) conn).1 = [] ∧
      (call_llamacpp_chat (.response st body) conn).2 =
        (if st = 502 ∨ st = 503 ∨ st = 504 then false else conn)) ∧
    (call_llamacpp_chat (.response 200 .notJson) conn = ([], conn)) ∧
    (call_llamacpp_chat (.response 200 .badShape) conn = ([], conn)) ∧
    (call_llamacpp_chat (.response 200 .choicesMissing) conn = ([], conn)) ∧
    (∀ c, (call_llamacpp_chat (.response 200 (.choicesFirst c)) conn).2 =
      conn) := by
  refine ⟨rfl, ?_, rfl, rfl, rfl, fun c => rfl⟩
  intro st body hst
  simp [call_llamacpp_chat, hst]

/-- Witness for C2 (amended): a 404 response leaves the connected flag
untouched and yields the empty string. -/
theorem completion_failure_contract_witness :
    (404 : Int) ≠ 200 ∧
    (call_llamacpp_chat (.response 404 ChatBody.notJson) true).1 = [] ∧
    (call_llamacpp_chat (.response 404 ChatBody.notJson) true).2 =
      (if (404 : Int) = 502 ∨ (404 : Int) = 503 ∨ (404 : Int) = 504
        then false else true) :=
  ⟨by decide,
    ((completion_failure_contract true).2.1 404 ChatBody.notJson
      (by decide)).1,
    ((completion_failure_contract true).2.1 404 ChatBody.notJson
      (by decide)).2⟩

/-! ### Claim theorems: Backend Probe -/

/-- C5 counterexample: a 204 root response is a 2xx status, yet the probe
reports unreachable (the fallback accepts exactly 200, 301 and 302). -/
theorem probe_fallback_2xx_counterexample :
    probe_server ModelsOutcome.transportError (RootOutcome.response 204) =
      (false, none) ∧
    200 ≤ (204 : Int) ∧ (204 : Int) < 300 := by decide

/-- C5 (amended): the probe is total; a 200 from the models endpoint with a
traversable payload reports reachable, recording the first listed model id
when the payload holds a non-empty list of objects; a transport error,
non-200 status, JSON failure, or a raising first list element falls through
to the root fallback, which reports reachable exactly for root status 200,
301 or 302 (not every 2xx/redirect status) and unreachable on a root
transport error. -/
theorem probe_server_contract :
    (∀ root, probe_server .transportError root = (probe_fallback root, none)) ∧
    (∀ (st : Int) (p : ModelsPayload) root, st ≠ 200 →
      probe_server (.response st p) root = (probe_fallback root, none)) ∧
    (∀ root, probe_server (.response 200 .notJson) root =
      (probe_fallback root, none)) ∧
    (∀ root, probe_server (.response 200 (.dataList .nonDict)) root =
      (probe_fallback root, none)) ∧
    (∀ root, probe_server (.response 200 .dataMissing) root = (true, none)) ∧
    (∀ root, probe_server (.response 200 .dataNonList) root = (true, none)) ∧
    (∀ id? root, probe_server (.response 200 (.dataList (.dict id?))) root =
      (true, id?)) ∧
    (probe_fallback .transportError = false) ∧
    (∀ st : Int, probe_fallback (.response st) = true ↔
      (st = 200 ∨ st = 301 ∨ st = 302)) := by
  refine ⟨fun _ => rfl, ?_, fun _ => rfl, fun _ => rfl, fun _ => rfl,
    fun _ => rfl, fun _ _ => rfl, rfl, ?_⟩
  · intro st p root hst
    simp [probe_server, hst]
  · intro st
    simp [probe_fallback]

/-- Witness for C5 (amended): Scenario E — a 200 with
`{"data":[{"id":"m1"}]}` records `m1`; connection errors on both endpoints
yield unreachable. -/
theorem probe_server_contract_witness :
    (500 : Int) ≠ 200 ∧
    probe_server (.response 500 ModelsPayload.notJson)
      RootOutcome.transportError = (probe_fallback .transportError, none) ∧
    probe_server (.response 200 (.dataList (.dict (some "m1"))))
      RootOutcome.transportError = (true, some "m1") :=
  ⟨by decide,
    probe_server_contract.2.1 500 ModelsPayload.notJson
      RootOutcome.transportError (by decide),
    probe_server_contract.2.2.2.2.2.2.1 (some "m1") RootOutcome.transportError⟩

/-! ### Claim theorems: Chat Session gating -/

/-- C7 counterexample: with the feature disabled (and even a connected
backend) `get_ai_response` returns with no callback at all — it does not
return the fixed apology string the claim demands. -/
theorem disabled_no_apology_counterexample :
    get_ai_response false true [] (fun h => (some "reply", h)) = (none, []) ∧
    (none : Option String) ≠ some brainDisconnectedMsg := ⟨rfl, by simp⟩

/-- C7 (amended): when disabled, `get_ai_response` returns immediately with
no reply and no history mutation, for every input; when enabled but
disconnected, it immediately invokes the callback with the fixed apology
string and performs no history mutation. -/
theorem session_gate_contract :
    (∀ (connected : Bool) (h : List Msg)
      (gen : List Msg → Option String × List Msg),
      get_ai_response false connected h gen = (none, h)) ∧
    (∀ (h : List Msg) (gen : List Msg → Option String × List Msg),
      get_ai_response true false h gen = (some brainDisconnectedMsg, h)) :=
  ⟨fun _ _ _ => rfl, fun _ _ => rfl⟩

/-! ### Claim theorems: Command Router -/

/-- C9 counterexample: a chat line authored by the bot's own identity whose
text is `"!eval"` is suppressed by the early self-message return in `react`
and never reaches the command dispatcher, so no eval reply is produced. -/
theorem self_eval_suppressed_counterexample :
    react
      { botName := "MyBot", stats := ["eval: +1.0"], isAbortable := false,
        accountName := "MyBot", engineName := "stockfish", version := "1.0",
        queueNames := [] }
      { room := "player", username := "MyBot", text := "!eval" }
      = ReactOutcome.selfSuppressed ∧
    ReactOutcome.selfSuppressed ≠
      ReactOutcome.commandDispatched (some "eval: +1.0") := by decide

/-- C9 (amended): every chat line authored by the bot's own identity is
suppressed by `react` before any routing — including eval commands; the
self-eval allowance inside the `command` dispatcher (which would answer an
`eval` command from the bot itself with the stats reply) is unreachable from
`react`. -/
theorem self_message_suppression :
    (∀ (env : ChatEnv) (line : ChatLine), line.username = env.botName →
      react env line = ReactOutcome.selfSuppressed) ∧
    (∀ (env : ChatEnv) (line : ChatLine), line.username = env.botName →
      command env line "eval" = some (String.intercalate ", " env.stats)) := by
  constructor
  · intro env line hself
    simp [react, hself]
  · intro env line hself
    unfold command
    rw [if_neg (by decide), if_neg (fun hc => absurd hc.1 (by decide)),
      if_neg (by decide), if_pos ⟨by decide, Or.inl hself⟩]

/-- Witness for C9 (amended): a concrete self-authored `!eval` line. -/
theorem self_message_suppression_witness :
    react
      { botName := "B", stats := ["e1", "e2"], isAbortable := true,
        accountName := "B", engineName := "sf", version := "2.0",
        queueNames := ["q"] }
      { room := "spectator", username := "B", text := "!eval depth" }
      = ReactOutcome.selfSuppressed ∧
    command
      { botName := "B", stats := ["e1", "e2"], isAbortable := true,
        accountName := "B", engineName := "sf", version := "2.0",
        queueNames := ["q"] }
      { room := "spectator", username := "B", text := "!eval depth" }
      "eval" = some (String.intercalate ", " ["e1", "e2"]) :=
  ⟨self_message_suppression.1 _ _ rfl, self_message_suppression.2 _ _ rfl⟩

/-! ### Claim theorems: stats access in the generation step -/

/-- C10 counterexample: a stats sequence with exactly one element satisfies
the collaborator contract (at least one element), yet the score lookup
`stats[1]` raises (modelled as `none`), sending `_generate` into its
exception handler. -/
theorem stats_single_element_counterexample :
    1 ≤ (["eval: +0.3"] : List String).length ∧
    score_of_stats ["eval: +0.3"] = none := by decide

/-- C10 (amended): the score lookup in `_generate` is total exactly on stats
sequences with at least two elements (it reads index 1), and on the empty
sequence, where it falls back to `"unknown"`; a one-element sequence — still
within the stated collaborator contract — raises. -/
theorem score_lookup_contract :
    (∀ stats : List String, 2 ≤ stats.length →
      ∃ s, score_of_stats stats = some s) ∧
    score_of_stats [] = some "unknown" := by
  refine ⟨?_, rfl⟩
  intro stats h2
  match stats with
  | a :: b :: t => exact ⟨b, by simp [score_of_stats]⟩

/-- Witness for C10 (amended): a two-element stats sequence. -/
theorem score_lookup_contract_witness :
    2 ≤ (["depth 20", "+0.5"] : List String).length ∧
    ∃ s, score_of_stats ["depth 20", "+0.5"] = some s :=
  ⟨by decide, score_lookup_contract.1 ["depth 20", "+0.5"] (by decide)⟩

/-! ### Lemmas about the Reply Sanitizer -/

theorem splitAux_words (l : List Char) (acc : List Char)
    (hacc : ∀ c ∈ acc, pyIsSpace c = false) :
    ∀ w ∈ splitAux l acc, w ≠ [] ∧ ∀ c ∈ w, pyIsSpace c = false := by
  induction l generalizing acc with
  | nil =>
    intro w hw
    simp only [splitAux] at hw
    by_cases ha : acc.isEmpty
    · simp [ha] at hw
    · rw [if_neg ha] at hw
      simp only [List.mem_singleton] at hw
      subst hw
      refine ⟨?_, ?_⟩
      · simp only [ne_eq, List.reverse_eq_nil_iff]
        exact fun h => ha (by simp [h])
      · intro c hc
        exact hacc c (List.mem_reverse.mp hc)
  | cons c cs ih =>
    intro w hw
    simp only [splitAux] at hw
    by_cases hsp : pyIsSpace c = true
    · rw [if_pos hsp] at hw
      by_cases ha : acc.isEmpty
      · rw [if_pos ha] at hw
        exact ih [] (by simp) w hw
      · rw [if_neg ha] at hw
        rcases List.mem_cons.mp hw with h1 | h2
        · subst h1
          refine ⟨?_, ?_⟩
          · simp only [ne_eq, List.reverse_eq_nil_iff]
            exact fun h => ha (by simp [h])
          · intro x hx
            exact hacc x (List.mem_reverse.mp hx)
        · exact ih [] (by simp) w h2
    · rw [if_neg hsp] at hw
      refine ih (c :: acc) ?_ w hw
      intro x hx
      rcases List.mem_cons.mp hx with h1 | h2
      · subst h1
        simpa using hsp
      · exact hacc x h2

theorem pySplit_words (l : List Char) :
    ∀ w ∈ pySplit l, w ≠ [] ∧ ∀ c ∈ w, pyIsSpace c = false :=
  splitAux_words l [] (by simp)

theorem joinSpace_space_char (ws : List (List Char))
    (hws : ∀ w ∈ ws, ∀ c ∈ w, pyIsSpace c = false) :
    ∀ c ∈ joinSpace ws, pyIsSpace c = true → c = ' ' := by
  induction ws with
  | nil => intro c hc; simp [joinSpace] at hc
  | cons w ws' ih =>
    intro c hc hsp
    cases ws' with
    | nil =>
      simp only [joinSpace] at hc
      exact absurd hsp (by simp [hws w (by simp) c hc])
    | cons w2 ws'' =>
      simp only [joinSpace] at hc
      rcases List.mem_append.mp hc with h1 | h2
      · exact absurd hsp (by simp [hws w (by simp) c h1])
      · rcases List.mem_cons.mp h2 with h3 | h4
        · exact h3
        · exact ih (fun x hx => hws x (List.mem_cons_of_mem _ hx)) c h4 hsp

theorem chain_noDouble_of_no_space (l : List Char)
    (h : ∀ c ∈ l, pyIsSpace c = false) : List.Chain' noDouble l := by
  induction l with
  | nil => simp
  | cons a t ih =>
    cases t with
    | nil => simp
    | cons b t' =>
      rw [List.chain'_cons]
      refine ⟨?_, ih (fun c hc => h c (List.mem_cons_of_mem _ hc))⟩
      intro hc
      have ha := h a (by simp)
      rw [hc.1] at ha
      simp [pyIsSpace] at ha

theorem joinSpace_head (w : List Char) (ws : List (List Char)) (hw : w ≠ []) :
    (joinSpace (w :: ws)).head? = w.head? := by
  cases ws with
  | nil => rfl
  | cons w2 ws' =>
    simp only [joinSpace]
    cases w with
    | nil => exact absurd rfl hw
    | cons a t => rfl

theorem mem_of_getLast?_mem {α : Type} (l : List α) (x : α)
    (h : x ∈ l.getLast?) : x ∈ l := by
  obtain ⟨hne, hx⟩ := List.mem_getLast?_eq_getLast h
  rw [hx]
  exact List.getLast_mem hne

theorem mem_of_head?_mem {α : Type} (l : List α) (x : α)
    (h : x ∈ l.head?) : x ∈ l := by
  cases l with
  | nil => simp at h
  | cons a t =>
    simp only [List.head?_cons, Option.mem_def, Option.some.injEq] at h
    subst h
    simp

theorem chain_noDouble_joinSpace (ws : List (List Char))
    (hws : ∀ w ∈ ws, w ≠ [] ∧ ∀ c ∈ w, pyIsSpace c = false) :
    List.Chain' noDouble (joinSpace ws) := by
  induction ws with
  | nil => simp [joinSpace]
  | cons w ws' ih =>
    cases ws' with
    | nil => exact chain_noDouble_of_no_space w (hws w (by simp)).2
    | cons w2 ws'' =>
      simp only [joinSpace]
      rw [List.chain'_append]
      refine ⟨chain_noDouble_of_no_space w (hws w (by simp)).2, ?_, ?_⟩
      · have hj : List.Chain' noDouble (joinSpace (w2 :: ws'')) :=
          ih (fun x hx => hws x (List.mem_cons_of_mem _ hx))
        rw [List.chain'_cons']
        refine ⟨?_, hj⟩
        intro y hy
        have hw2 := hws w2 (by simp)
        rw [joinSpace_head w2 ws'' hw2.1] at hy
        intro hcon
        have hyw : y ∈ w2 := mem_of_head?_mem w2 y hy
        have := hw2.2 y hyw
        rw [hcon.2] at this
        simp [pyIsSpace] at this
      · intro x hx y hy
        intro hcon
        have hxw : x ∈ w := mem_of_getLast?_mem w x hx
        have := (hws w (by simp)).2 x hxw
        rw [hcon.1] at this
        simp [pyIsSpace] at this

theorem pyClean_space_char (text : List Char) :
    ∀ c ∈ pyClean text, pyIsSpace c = true → c = ' ' :=
  joinSpace_space_char _ (fun w hw => (pySplit_words text w hw).2)

theorem chain_noDouble_pyClean (text : List Char) :
    List.Chain' noDouble (pyClean text) :=
  chain_noDouble_joinSpace _ (pySplit_words text)

theorem dropWhile_eq_drop_exists (p : Char → Bool) (l : List Char) :
    ∃ k, l.dropWhile p = l.drop k := by
  induction l with
  | nil => exact ⟨0, rfl⟩
  | cons a t ih =>
    by_cases hp : p a = true
    · obtain ⟨k, hk⟩ := ih
      exact ⟨k + 1, by simp [List.dropWhile_cons, hp, hk]⟩
    · exact ⟨0, by simp [List.dropWhile_cons, hp]⟩

theorem pyRstrip_subset (l : List Char) : ∀ c ∈ pyRstrip l, c ∈ l := by
  intro c hc
  unfold pyRstrip at hc
  rw [List.mem_reverse] at hc
  exact List.mem_reverse.mp ((List.dropWhile_sublist pyIsSpace).subset hc)

theorem pyRstrip_length_le (l : List Char) :
    (pyRstrip l).length ≤ l.length := by
  unfold pyRstrip
  rw [List.length_reverse]
  calc (l.reverse.dropWhile pyIsSpace).length
      ≤ l.reverse.length := (List.dropWhile_sublist pyIsSpace).length_le
    _ = l.length := List.length_reverse l

theorem chain_noDouble_flip (l : List Char)
    (h : List.Chain' noDouble l) : List.Chain' (flip noDouble) l :=
  h.imp (fun _ _ hab hc => hab ⟨hc.2, hc.1⟩)

theorem chain_noDouble_unflip (l : List Char)
    (h : List.Chain' (flip noDouble) l) : List.Chain' noDouble l :=
  h.imp (fun _ _ hab hc => hab ⟨hc.2, hc.1⟩)

theorem chain_noDouble_pyRstrip (l : List Char)
    (h : List.Chain' noDouble l) : List.Chain' noDouble (pyRstrip l) := by
  unfold pyRstrip
  rw [List.chain'_reverse]
  obtain ⟨k, hk⟩ := dropWhile_eq_drop_exists pyIsSpace l.reverse
  rw [hk]
  have h1 : List.Chain' noDouble l.reverse := by
    rw [List.chain'_reverse]
    exact chain_noDouble_flip l h
  exact chain_noDouble_flip _ (h1.drop k)

theorem chain_noDouble_append_ellipsis (l : List Char)
    (h : List.Chain' noDouble l) : List.Chain' noDouble (l ++ ['…']) := by
  rw [List.chain'_append]
  refine ⟨h, by simp, ?_⟩
  intro x hx y hy
  simp only [List.head?_cons, Option.mem_def, Option.some.injEq] at hy
  subst hy
  intro hc
  exact absurd hc.2 (by decide)

theorem lsm_length (text : List Char) (limit : Int) (hlim : 0 < limit) :
    ((lichess_safe_message text limit).length : Int) ≤ limit := by
  unfold lichess_safe_message
  by_cases ht : text = []
  · simp only [ht, if_pos]
    simp
    omega
  · simp only [ht, if_neg, not_false_iff]
    by_cases hc : ((pyClean text).length : Int) ≤ limit
    · simp only [hc, if_pos]
    · simp only [hc, if_neg, not_false_iff]
      have hcutlen : ((pyClean text).take (max 0 (limit - 1)).toNat).length
          ≤ (max 0 (limit - 1)).toNat := List.length_take_le _ _
      have htn : (((max 0 (limit - 1)).toNat : Int)) = limit - 1 := by
        rw [Int.toNat_of_nonneg (by omega)]
        omega
      by_cases hls :
          30 ≤ rfindChar ((pyClean text).take (max 0 (limit - 1)).toNat) ' '
      · simp only [hls, if_pos]
        rw [List.length_append]
        have h1 := pyRstrip_length_le
          (((pyClean text).take (max 0 (limit - 1)).toNat).take
            (rfindChar ((pyClean text).take (max 0 (limit - 1)).toNat) ' ').toNat)
        have h2 : ((((pyClean text).take (max 0 (limit - 1)).toNat).take
            (rfindChar ((pyClean text).take (max 0 (limit - 1)).toNat) ' ').toNat)).length
            ≤ ((pyClean text).take (max 0 (limit - 1)).toNat).length := by
          rw [List.length_take]
          exact min_le_right _ _
        simp only [List.length_singleton]
        omega
      · simp only [hls, if_neg, not_false_iff]
        rw [List.length_append]
        have h1 := pyRstrip_length_le ((pyClean text).take (max 0 (limit - 1)).toNat)
        simp only [List.length_singleton]
        omega

theorem lsm_space_char (text : List Char) (limit : Int) :
    ∀ c ∈ lichess_safe_message text limit, pyIsSpace c = true → c = ' ' := by
  intro c hc hsp
  unfold lichess_safe_message at hc
  by_cases ht : text = []
  · simp only [ht, if_pos] at hc
    simp at hc
  · simp only [ht, if_neg, not_false_iff] at hc
    by_cases hlen : ((pyClean text).length : Int) ≤ limit
    · simp only [hlen, if_pos] at hc
      exact pyClean_space_char text c hc hsp
    · simp only [hlen, if_neg, not_false_iff] at hc
      rcases List.mem_append.mp hc with h1 | h2
      · have hcut2 := pyRstrip_subset _ c h1
        have hclean : c ∈ pyClean text := by
          by_cases hls :
              30 ≤ rfindChar ((pyClean text).take (max 0 (limit - 1)).toNat) ' '
          · rw [if_pos hls] at hcut2
            exact List.take_subset _ _ (List.take_subset _ _ hcut2)
          · rw [if_neg hls] at hcut2
            exact List.take_subset _ _ hcut2
        exact pyClean_space_char text c hclean hsp
      · simp only [List.mem_singleton] at h2
        subst h2
        exact absurd hsp (by decide)

theorem lsm_chain (text : List Char) (limit : Int) :
    List.Chain' noDouble (lichess_safe_message text limit) := by
  unfold lichess_safe_message
  by_cases ht : text = []
  · simp [ht]
  · simp only [ht, if_neg, not_false_iff]
    by_cases hlen : ((pyClean text).length : Int) ≤ limit
    · simp only [hlen, if_pos]
      exact chain_noDouble_pyClean text
    · simp only [hlen, if_neg, not_false_iff]
      apply chain_noDouble_append_ellipsis
      apply chain_noDouble_pyRstrip
      by_cases hls :
          30 ≤ rfindChar ((pyClean text).take (max 0 (limit - 1)).toNat) ' '
      · simp only [hls, if_pos]
        exact ((chain_noDouble_pyClean text).take _).take _
      · simp only [hls, if_neg, not_false_iff]
        exact (chain_noDouble_pyClean text).take _

theorem rfindChar_of_not_mem (l : List Char) (c : Char)
    (h : ∀ i : Nat, l[i]? ≠ some c) : rfindChar l c = -1 := by
  induction l with
  | nil => rfl
  | cons x xs ih =>
    have hx : x ≠ c := fun he => h 0 (by simp [he])
    have ht : ∀ i : Nat, xs[i]? ≠ some c := fun i he =>
      h (i + 1) (by simpa using he)
    simp only [rfindChar, ih ht]
    rw [if_neg (by decide), if_neg hx]

theorem rfindChar_eq_last_index (l : List Char) (c : Char) (j : Nat)
    (hj : l[j]? = some c) (hlast : ∀ i : Nat, j < i → l[i]? ≠ some c) :
    rfindChar l c = (j : Int) := by
  induction l generalizing j with
  | nil => simp at hj
  | cons x xs ih =>
    cases j with
    | zero =>
      simp only [List.getElem?_cons_zero, Option.some.injEq] at hj
      have hxs : ∀ i : Nat, xs[i]? ≠ some c := fun i he =>
        hlast (i + 1) (Nat.succ_pos i) (by simpa using he)
      simp only [rfindChar, rfindChar_of_not_mem xs c hxs]
      rw [if_neg (by decide), if_pos hj]
      simp
    | succ j' =>
      have hj' : xs[j']? = some c := by simpa using hj
      have hlast' : ∀ i : Nat, j' < i → xs[i]? ≠ some c := fun i hi he =>
        hlast (i + 1) (by omega) (by simpa using he)
      have hr := ih j' hj' hlast'
      simp only [rfindChar, hr]
      rw [if_pos (by positivity)]
      push_cast
      ring

/-! ### Claim theorems: Reply Sanitizer -/

/-- C6: for every input and every positive limit, the sanitized text has
length at most the limit, its only whitespace characters are single spaces
(all whitespace runs, newlines included, were collapsed), no two spaces are
adjacent, and consequently every reply `send_reply` hands to the transport
is at most 140 characters and contains no newline. -/
theorem sanitizer_output_contract (text : List Char) (limit : Int)
    (hlim : 0 < limit) :
    ((lichess_safe_message text limit).length : Int) ≤ limit ∧
    (∀ c ∈ lichess_safe_message text limit, pyIsSpace c = true → c = ' ') ∧
    List.Chain' noDouble (lichess_safe_message text limit) ∧
    (∀ t ∈ send_reply_sent text, (t.length : Int) ≤ 140 ∧ '\n' ∉ t) := by
  refine ⟨lsm_length text limit hlim, lsm_space_char text limit,
    lsm_chain text limit, ?_⟩
  intro t ht
  unfold send_reply_sent at ht
  by_cases hr : lichess_safe_message text MAX_LICHESS_CHAT_CHARS = []
  · simp [hr] at ht
  · simp only [hr, if_neg, not_false_iff, Option.mem_def,
      Option.some.injEq] at ht
    subst ht
    constructor
    · exact lsm_length text MAX_LICHESS_CHAT_CHARS (by decide)
    · intro hn
      have := lsm_space_char text MAX_LICHESS_CHAT_CHARS '\n' hn (by decide)
      exact absurd this (by decide)

/-- Witness for C6: a short input containing a newline, at limit 5. -/
theorem sanitizer_output_contract_witness :
    (0 : Int) < 5 ∧
    ((lichess_safe_message ['h', 'i', '\n', 'x'] 5).length : Int) ≤ 5 :=
  ⟨by decide, (sanitizer_output_contract ['h', 'i', '\n', 'x'] 5 (by decide)).1⟩

/-- C8 counterexample: the input `"a   b"` has length 5 > limit 4, yet its
whitespace-collapsed form `"a b"` fits within the limit, so the sanitizer
returns it unchanged with no trailing ellipsis — the claim's "every input
text whose length exceeds limit" premise is the wrong measure. -/
theorem truncation_marker_counterexample :
    (0 : Int) < 4 ∧
    (4 : Int) < ((['a', ' ', ' ', ' ', 'b'] : List Char).length : Int) ∧
    (lichess_safe_message ['a', ' ', ' ', ' ', 'b'] 4).getLast?
      ≠ some '…' := by decide

/-- C8 (amended): for every positive limit and every input whose
whitespace-collapsed form is longer than the limit, the sanitized output
ends in the ellipsis character; moreover, writing `cut` for the collapsed
text truncated to `limit - 1` characters, if the last space of `cut` sits at
an index `j ≥ 30` then the output is exactly `cut` cut back to that space,
right-stripped, with the ellipsis appended. -/
theorem truncation_marker (text : List Char) (limit : Int) (hlim : 0 < limit)
    (hlong : limit < ((pyClean text).length : Int)) :
    (∃ pre, lichess_safe_message text limit = pre ++ ['…']) ∧
    (∀ j : Nat, 30 ≤ j →
      ((pyClean text).take (limit - 1).toNat)[j]? = some ' ' →
      (∀ i : Nat, j < i →
        ((pyClean text).take (limit - 1).toNat)[i]? ≠ some ' ') →
      lichess_safe_message text limit =
        pyRstrip (((pyClean text).take (limit - 1).toNat).take j) ++ ['…']) := by
  have ht : text ≠ [] := by
    intro h
    rw [h] at hlong
    simp only [pyClean, pySplit, splitAux, List.isEmpty_nil, if_pos,
      joinSpace, List.length_nil, Nat.cast_zero] at hlong
    omega
  have hmax : max 0 (limit - 1) = limit - 1 := by omega
  have hnfit : ¬ ((pyClean text).length : Int) ≤ limit := by omega
  constructor
  · unfold lichess_safe_message
    simp only [ht, if_neg, not_false_iff, hnfit]
    exact ⟨_, rfl⟩
  · intro j h30 hget hafter
    have hrf : rfindChar ((pyClean text).take (limit - 1).toNat) ' ' =
        (j : Int) :=
      rfindChar_eq_last_index _ ' ' j hget hafter
    unfold lichess_safe_message
    simp only [ht, if_neg, not_false_iff, hnfit, hmax, hrf]
    rw [if_pos (by exact_mod_cast h30)]
    simp

/-- Witness for C8 (amended): 32 letters, a space, then 10 more letters,
truncated at limit 40, ends in an ellipsis. -/
theorem truncation_marker_witness :
    (0 : Int) < 40 ∧
    (40 : Int) <
      ((pyClean (List.replicate 32 'a' ++ ' ' :: List.replicate 10 'b')).length
        : Int) ∧
    (∃ pre, lichess_safe_message
      (List.replicate 32 'a' ++ ' ' :: List.replicate 10 'b') 40 =
        pre ++ ['…']) :=
  ⟨by decide, by decide,
    (truncation_marker (List.replicate 32 'a' ++ ' ' :: List.replicate 10 'b')
      40 (by decide) (by decide)).1⟩

end LichessBot
